import Mathlib

/-!
Verification of the snapshot aggregator in `src/display/ui_state.rs` of the
bandwhich repository.  The Rust `BTreeMap`/`HashMap` values are embedded as
association lists (`List (K × V)`); `u128` byte counters are embedded as `Nat`,
following the design note of the specification that the counters are to be
treated as practically unbounded.  The `f32` decay computation of
`calc_avg_bandwidth` is embedded with exact IEEE-754 binary32 semantics: the
integer-to-float casts round to nearest with ties to even (overflowing to
infinity), the two multiplications by `0.5` are exact, the addition rounds to
nearest with ties to even, and the float-to-integer cast truncates toward zero
(saturating on infinity).
-/

namespace Bandwhich

/-! ### Association-list primitives

These model the map operations used by `UIState::new`: `BTreeMap::entry(..).or_default()`
followed by field mutation (`updList`), `HashMap::remove` (`lookupList` + `eraseList`),
and `BTreeMap::get` (`lookupList`). -/

def lookupList {K V : Type} [DecidableEq K] (k : K) : List (K × V) → Option V
  | [] => none
  | p :: rest => if p.1 = k then some p.2 else lookupList k rest

def eraseList {K V : Type} [DecidableEq K] (k : K) : List (K × V) → List (K × V)
  | [] => []
  | p :: rest => if p.1 = k then rest else p :: eraseList k rest

def updList {K V : Type} [DecidableEq K] (k : K) (f : V → V) (d : V) :
    List (K × V) → List (K × V)
  | [] => [(k, f d)]
  | p :: rest => if p.1 = k then (p.1, f p.2) :: rest else p :: updList k f d rest

theorem lookupList_eq_none {K V : Type} [DecidableEq K] {k : K} {m : List (K × V)} :
    lookupList k m = none ↔ k ∉ m.map Prod.fst := by
  induction m with
  | nil => simp [lookupList]
  | cons p rest ih =>
    by_cases h : p.1 = k
    · subst h; simp [lookupList]
    · have hne : k ≠ p.1 := fun hh => h hh.symm
      simp only [lookupList, h, if_false, List.map_cons, List.mem_cons, ih]
      simp [hne, not_or]

theorem mem_of_lookupList {K V : Type} [DecidableEq K] {k : K} {v : V} {m : List (K × V)}
    (h : lookupList k m = some v) : (k, v) ∈ m := by
  induction m with
  | nil => simp [lookupList] at h
  | cons p rest ih =>
    by_cases hk : p.1 = k
    · subst hk
      simp [lookupList] at h
      subst h
      exact List.mem_cons_self _ _
    · simp [lookupList, hk] at h
      exact List.mem_cons_of_mem _ (ih h)

theorem lookupList_of_mem_nodup {K V : Type} [DecidableEq K] {k : K} {v : V}
    {m : List (K × V)} (hn : (m.map Prod.fst).Nodup) (h : (k, v) ∈ m) :
    lookupList k m = some v := by
  induction m with
  | nil => simp at h
  | cons p rest ih =>
    simp only [List.map_cons, List.nodup_cons] at hn
    rcases List.mem_cons.mp h with h | h
    · subst h; simp [lookupList]
    · have hk : p.1 ≠ k := by
        intro hk
        exact hn.1 (hk ▸ (List.mem_map.mpr ⟨(k, v), h, rfl⟩))
      simp [lookupList, hk, ih hn.2 h]

theorem lookupList_append_of_none {K V : Type} [DecidableEq K] {k : K}
    {m₁ m₂ : List (K × V)} (h : lookupList k m₁ = none) :
    lookupList k (m₁ ++ m₂) = lookupList k m₂ := by
  induction m₁ with
  | nil => simp
  | cons p rest ih =>
    by_cases hk : p.1 = k
    · simp [lookupList, hk] at h
    · simp only [lookupList, hk, if_false] at h ⊢
      simp [lookupList, hk, ih h]

theorem lookupList_updList_self {K V : Type} [DecidableEq K] (k : K) (f : V → V) (d : V)
    (m : List (K × V)) :
    lookupList k (updList k f d m) = some (f ((lookupList k m).getD d)) := by
  induction m with
  | nil => simp [updList, lookupList]
  | cons p rest ih =>
    by_cases hk : p.1 = k
    · subst hk; simp [updList, lookupList]
    · simp [updList, lookupList, hk, ih]

theorem lookupList_updList_ne {K V : Type} [DecidableEq K] {k k' : K} (h : k' ≠ k)
    (f : V → V) (d : V) (m : List (K × V)) :
    lookupList k' (updList k f d m) = lookupList k' m := by
  have h2 : k ≠ k' := Ne.symm h
  induction m with
  | nil => simp [updList, lookupList, h2]
  | cons p rest ih =>
    by_cases hk : p.1 = k
    · subst hk
      simp [updList, lookupList, h2]
    · simp [updList, lookupList, hk, ih]

theorem updList_of_none {K V : Type} [DecidableEq K] {k : K} {m : List (K × V)}
    (h : lookupList k m = none) (f : V → V) (d : V) :
    updList k f d m = m ++ [(k, f d)] := by
  induction m with
  | nil => simp [updList]
  | cons p rest ih =>
    by_cases hk : p.1 = k
    · simp [lookupList, hk] at h
    · simp only [lookupList, hk, if_false] at h
      simp [updList, hk, ih h]

theorem keys_updList {K V : Type} [DecidableEq K] (k : K) (f : V → V) (d : V)
    (m : List (K × V)) :
    (updList k f d m).map Prod.fst =
      if k ∈ m.map Prod.fst then m.map Prod.fst else m.map Prod.fst ++ [k] := by
  induction m with
  | nil => simp [updList]
  | cons p rest ih =>
    by_cases hk : p.1 = k
    · subst hk; simp [updList]
    · have : ¬ k = p.1 := fun hh => hk hh.symm
      by_cases hmem : k ∈ rest.map Prod.fst <;>
        simp [updList, hk, ih, this, hmem]

theorem nodup_keys_updList {K V : Type} [DecidableEq K] {k : K} {m : List (K × V)}
    (hn : (m.map Prod.fst).Nodup) (f : V → V) (d : V) :
    ((updList k f d m).map Prod.fst).Nodup := by
  rw [keys_updList]
  by_cases hmem : k ∈ m.map Prod.fst
  · simpa [hmem] using hn
  · simp only [hmem, if_false]
    refine List.Nodup.append hn (List.nodup_singleton k) ?_
    intro a ha hb
    simp only [List.mem_singleton] at hb
    exact hmem (hb ▸ ha)

theorem lookupList_eraseList_ne {K V : Type} [DecidableEq K] {k k' : K} (h : k' ≠ k)
    (m : List (K × V)) : lookupList k' (eraseList k m) = lookupList k' m := by
  have h2 : k ≠ k' := Ne.symm h
  induction m with
  | nil => simp [eraseList]
  | cons p rest ih =>
    by_cases hk : p.1 = k
    · subst hk
      simp [eraseList, lookupList, h2]
    · simp [eraseList, lookupList, hk, ih]

theorem keys_eraseList_sublist {K V : Type} [DecidableEq K] (k : K) (m : List (K × V)) :
    ((eraseList k m).map Prod.fst).Sublist (m.map Prod.fst) := by
  induction m with
  | nil => simp [eraseList]
  | cons p rest ih =>
    by_cases hk : p.1 = k
    · simp only [eraseList, hk, if_true, List.map_cons]
      exact List.sublist_cons_self _ _
    · simp only [eraseList, hk, if_false, List.map_cons]
      exact ih.cons₂ p.1

theorem nodup_keys_eraseList {K V : Type} [DecidableEq K] {k : K} {m : List (K × V)}
    (hn : (m.map Prod.fst).Nodup) : ((eraseList k m).map Prod.fst).Nodup :=
  (keys_eraseList_sublist k m).nodup hn

theorem lookupList_eraseList_self {K V : Type} [DecidableEq K] {k : K} {m : List (K × V)}
    (hn : (m.map Prod.fst).Nodup) : lookupList k (eraseList k m) = none := by
  induction m with
  | nil => simp [eraseList, lookupList]
  | cons p rest ih =>
    simp only [List.map_cons, List.nodup_cons] at hn
    by_cases hk : p.1 = k
    · subst hk
      simp only [eraseList, if_true]
      exact lookupList_eq_none.mpr hn.1
    · simp [eraseList, lookupList, hk, ih hn.2]

theorem lookupList_eraseList_of_none {K V : Type} [DecidableEq K] {k k' : K}
    {m : List (K × V)} (h : lookupList k' m = none) :
    lookupList k' (eraseList k m) = none := by
  rw [lookupList_eq_none] at h ⊢
  exact fun hmem => h ((keys_eraseList_sublist k m).mem hmem)

theorem lookupList_perm {K V : Type} [DecidableEq K] {m₁ m₂ : List (K × V)}
    (hp : m₁.Perm m₂) (hn : (m₁.map Prod.fst).Nodup) (k : K) :
    lookupList k m₁ = lookupList k m₂ := by
  have hn₂ : (m₂.map Prod.fst).Nodup := ((hp.map Prod.fst).nodup_iff).mp hn
  cases h : lookupList k m₁ with
  | some v =>
    exact (lookupList_of_mem_nodup hn₂ (hp.mem_iff.mp (mem_of_lookupList h))).symm
  | none =>
    symm
    rw [lookupList_eq_none] at h ⊢
    exact fun hmem => h ((hp.map Prod.fst).mem_iff.mpr hmem)

/-! ### Data model

`Socket`, `Connection` and the per-connection entry of the utilization snapshot
live in `src/network` of the repository, which is not part of the provided
sources; they are modelled from the spec.  `NetworkData`, `ConnectionData` and
`UIState` are translated from `src/display/ui_state.rs`. -/

/-- Modelled from the spec: a socket half of a flow.  `Ipv4Addr` is embedded as
a `Nat`; the claims only compare addresses for equality. -/
structure Socket where
  ip : Nat
  port : Nat
deriving DecidableEq

/-- Modelled from the spec: `network::Connection`, the opaque map key that
"identifies a flow by local/remote socket pair".  `UIState::new` reads
`connection.remote_socket.ip`. -/
structure Connection where
  local_socket : Socket
  remote_socket : Socket
deriving DecidableEq

/-- Modelled from the spec: the per-connection entry of the traffic snapshot,
"a mapping from connection identity to
`{total_bytes_downloaded, total_bytes_uploaded, interface_name}`". -/
structure ConnectionInfo where
  interface_name : String
  total_bytes_downloaded : Nat
  total_bytes_uploaded : Nat
deriving DecidableEq

/-- Modelled from the spec: `network::Utilization`, the raw traffic snapshot,
holding the per-connection map drained by `UIState::new`. -/
structure Utilization where
  connections : List (Connection × ConnectionInfo)
deriving DecidableEq

/-- `NetworkData` (ui_state.rs lines 16–23): the Process and Remote-Address
aggregate. -/
structure NetworkData where
  total_bytes_downloaded : Nat := 0
  total_bytes_uploaded : Nat := 0
  prev_total_bytes_downloaded : Nat := 0
  prev_total_bytes_uploaded : Nat := 0
  connection_count : Nat := 0
deriving DecidableEq

/-- `#[derive(Default)]` for `NetworkData`: all counters zero. -/
def NetworkData.default : NetworkData :=
  { total_bytes_downloaded := 0, total_bytes_uploaded := 0,
    prev_total_bytes_downloaded := 0, prev_total_bytes_uploaded := 0,
    connection_count := 0 }

/-- `ConnectionData` (ui_state.rs lines 25–33): the Connection aggregate. -/
structure ConnectionData where
  total_bytes_downloaded : Nat := 0
  total_bytes_uploaded : Nat := 0
  prev_total_bytes_downloaded : Nat := 0
  prev_total_bytes_uploaded : Nat := 0
  process_name : String := ""
  interface_name : String := ""
deriving DecidableEq

/-- `#[derive(Default)]` for `ConnectionData`: zero counters, empty strings. -/
def ConnectionData.default : ConnectionData :=
  { total_bytes_downloaded := 0, total_bytes_uploaded := 0,
    prev_total_bytes_downloaded := 0, prev_total_bytes_uploaded := 0,
    process_name := "", interface_name := "" }

/-- Round `n / d` to the nearest integer, ties to the even quotient
(round-to-nearest, ties-to-even on the significand). -/
def rneDiv (n d : Nat) : Nat :=
  let q := n / d
  let r := n % d
  if 2 * r < d then q
  else if d < 2 * r then q + 1
  else if q % 2 = 0 then q else q + 1

/-- The value of the binary32 float nearest to the natural number `x`
(round to nearest, ties to even), with unbounded exponent: exact below
`2 ^ 24`, otherwise rounded to a multiple of the ulp `2 ^ (log2 x - 23)` of
its binade.  Exponent-range effects never matter at these magnitudes apart
from overflow, which `toF32` handles. -/
def rneNat (x : Nat) : Nat :=
  if x < 2 ^ 24 then x
  else
    rneDiv x (2 ^ (Nat.log2 x - 23)) * 2 ^ (Nat.log2 x - 23)

/-- The largest finite binary32 value, `(2 ^ 24 - 1) * 2 ^ 104`. -/
def maxF32 : Nat := (2 ^ 24 - 1) * 2 ^ 104

/-- `x as f32` for an unsigned integer `x`: round to nearest, ties to even;
`none` models overflow to infinity (IEEE: the result rounded with unbounded
exponent exceeds the largest finite value). -/
def toF32 (x : Nat) : Option Nat :=
  if rneNat x ≤ maxF32 then some (rneNat x) else none

/-- `calc_avg_bandwidth` (ui_state.rs lines 35–42).  The source computes
`(prev as f32 * 0.5 + (1.0 - 0.5) * curr as f32) as u128` with
`BANDWIDTH_DECAY_FACTOR = 0.5`, embedded with exact binary32 semantics:

* `1.0 - 0.5` is exactly `0.5`;
* the casts of `prev` and `curr` are `toF32` (round to nearest, ties to even,
  infinity on overflow);
* multiplying a finite value of these magnitudes by `0.5` is exact (an
  exponent decrement; no underflow at values ≥ 1/2 or = 0);
* the addition rounds `p/2 + c/2 = (p + c)/2` to nearest, ties to even; its
  doubled value is `rneNat (p + c)`, since rounding commutes with scaling by
  two at these magnitudes;
* the `as u128` cast truncates the sum toward zero — `rneNat (p + c) / 2` —
  and saturates to `2 ^ 128 - 1` when an operand overflowed to infinity.

For example `calc_avg_bandwidth 16777218 1 = 8388610`: the addition value
`8388609.5` rounds up to the even significand, where floor division would
give `8388609`. -/
def calc_avg_bandwidth (prev_bandwidth curr_bandwidth : Nat) : Nat :=
  if prev_bandwidth = 0 then
    curr_bandwidth
  else
    match toF32 prev_bandwidth, toF32 curr_bandwidth with
    | some p, some c => rneNat (p + c) / 2
    | _, _ => 2 ^ 128 - 1

/-- `impl Bandwidth for ConnectionData`, lines 44–60. -/
def ConnectionData.get_total_bytes_uploaded (s : ConnectionData) : Nat :=
  s.total_bytes_uploaded

def ConnectionData.get_total_bytes_downloaded (s : ConnectionData) : Nat :=
  s.total_bytes_downloaded

def ConnectionData.get_avg_bytes_uploaded (s : ConnectionData) : Nat :=
  calc_avg_bandwidth s.prev_total_bytes_uploaded s.total_bytes_uploaded

def ConnectionData.get_avg_bytes_downloaded (s : ConnectionData) : Nat :=
  calc_avg_bandwidth s.prev_total_bytes_downloaded s.total_bytes_downloaded

/-- `impl Bandwidth for NetworkData`, lines 62–78. -/
def NetworkData.get_total_bytes_uploaded (s : NetworkData) : Nat :=
  s.total_bytes_uploaded

def NetworkData.get_total_bytes_downloaded (s : NetworkData) : Nat :=
  s.total_bytes_downloaded

def NetworkData.get_avg_bytes_uploaded (s : NetworkData) : Nat :=
  calc_avg_bandwidth s.prev_total_bytes_uploaded s.total_bytes_uploaded

def NetworkData.get_avg_bytes_downloaded (s : NetworkData) : Nat :=
  calc_avg_bandwidth s.prev_total_bytes_downloaded s.total_bytes_downloaded

/-- `UIState` (ui_state.rs lines 80–87).  The three `BTreeMap`s are embedded as
association lists. -/
structure UIState where
  processes : List (String × NetworkData) := []
  remote_addresses : List (Nat × NetworkData) := []
  connections : List (Connection × ConnectionData) := []
  total_bytes_downloaded : Nat := 0
  total_bytes_uploaded : Nat := 0
deriving DecidableEq

/-! ### The builder `UIState::new` (ui_state.rs lines 89–148)

The Rust loop mutates five locals plus the drained `network_utilization`; the
embedding threads them through a fold as the record `BuildAcc`. -/

structure BuildAcc where
  processes : List (String × NetworkData)
  remote_addresses : List (Nat × NetworkData)
  connections : List (Connection × ConnectionData)
  total_bytes_downloaded : Nat
  total_bytes_uploaded : Nat
  utilization : List (Connection × ConnectionInfo)
deriving DecidableEq

/-- Lines 124–128: the smoothed averages carried over from `old_state` for a
connection, `(downloaded, uploaded)`; `(0, 0)` when the connection is absent
(the source then skips the additions, which adds zero). -/
def prevAvg (old_state : UIState) (connection : Connection) : Nat × Nat :=
  match lookupList connection old_state.connections with
  | some prev_connection_info =>
      (prev_connection_info.get_avg_bytes_downloaded,
       prev_connection_info.get_avg_bytes_uploaded)
  | none => (0, 0)

/-- Lines 108–110 and 132–133 (and, field for field identically, lines 115–119
and 135–136 for the remote-address aggregate): the mutations applied to a
`NetworkData` aggregate for one matched connection. -/
def networkDataUpdate (connection_info : ConnectionInfo) (prev : Nat × Nat)
    (d : NetworkData) : NetworkData :=
  { d with
    total_bytes_downloaded := d.total_bytes_downloaded + connection_info.total_bytes_downloaded
    total_bytes_uploaded := d.total_bytes_uploaded + connection_info.total_bytes_uploaded
    connection_count := d.connection_count + 1
    prev_total_bytes_downloaded := d.prev_total_bytes_downloaded + prev.1
    prev_total_bytes_uploaded := d.prev_total_bytes_uploaded + prev.2 }

/-- Lines 111–114 and 129–130: the mutations applied to the `ConnectionData`
aggregate for one matched connection. -/
def connectionDataUpdate (process_name : String) (connection_info : ConnectionInfo)
    (prev : Nat × Nat) (d : ConnectionData) : ConnectionData :=
  { d with
    total_bytes_downloaded := d.total_bytes_downloaded + connection_info.total_bytes_downloaded
    total_bytes_uploaded := d.total_bytes_uploaded + connection_info.total_bytes_uploaded
    process_name := process_name
    interface_name := connection_info.interface_name
    prev_total_bytes_downloaded := d.prev_total_bytes_downloaded + prev.1
    prev_total_bytes_uploaded := d.prev_total_bytes_uploaded + prev.2 }

/-- One iteration of the `for (connection, process_name) in connections_to_procs`
loop (lines 100–139).  A connection absent from the utilization map is skipped;
a matched connection is removed from the utilization map and folded into the
three aggregate maps and the two global totals. -/
def UIState.step (old_state : UIState) (acc : BuildAcc) (e : Connection × String) :
    BuildAcc :=
  match lookupList e.1 acc.utilization with
  | none => acc
  | some connection_info =>
      let prev := prevAvg old_state e.1
      { processes := updList e.2 (networkDataUpdate connection_info prev)
          NetworkData.default acc.processes
        remote_addresses := updList e.1.remote_socket.ip
          (networkDataUpdate connection_info prev) NetworkData.default acc.remote_addresses
        connections := updList e.1 (connectionDataUpdate e.2 connection_info prev)
          ConnectionData.default acc.connections
        total_bytes_downloaded :=
          acc.total_bytes_downloaded + connection_info.total_bytes_downloaded
        total_bytes_uploaded :=
          acc.total_bytes_uploaded + connection_info.total_bytes_uploaded
        utilization := eraseList e.1 acc.utilization }

/-- Lines 95–99: the empty maps and zero totals the loop starts from, together
with the consumed utilization snapshot. -/
def initAcc (network_utilization : Utilization) : BuildAcc :=
  { processes := []
    remote_addresses := []
    connections := []
    total_bytes_downloaded := 0
    total_bytes_uploaded := 0
    utilization := network_utilization.connections }

/-- The whole loop of `UIState::new`.  `connections_to_procs` is a `HashMap` in
the source; it is embedded as its entry list in some iteration order (theorems
assume its keys are `Nodup`, the `HashMap` invariant). -/
def UIState.build (connections_to_procs : List (Connection × String))
    (network_utilization : Utilization) (old_state : UIState) : BuildAcc :=
  connections_to_procs.foldl (UIState.step old_state) (initAcc network_utilization)

/-- `UIState::new` (lines 89–148): the five locals packed into the result. -/
def UIState.new (connections_to_procs : List (Connection × String))
    (network_utilization : Utilization) (old_state : UIState) : UIState :=
  let acc := UIState.build connections_to_procs network_utilization old_state
  { processes := acc.processes
    remote_addresses := acc.remote_addresses
    connections := acc.connections
    total_bytes_downloaded := acc.total_bytes_downloaded
    total_bytes_uploaded := acc.total_bytes_uploaded }

/-- The state of the drained `network_utilization.connections` map after the
loop of `UIState::new` has run (the map is consumed by the call; this exposes
its final contents for the frame claims). -/
def UIState.finalUtilization (connections_to_procs : List (Connection × String))
    (network_utilization : Utilization) (old_state : UIState) :
    List (Connection × ConnectionInfo) :=
  (UIState.build connections_to_procs network_utilization old_state).utilization

/-! ### Characterization of the build

A connection is *matched* when it is present in both `connections_to_procs` and
the utilization snapshot.  `matchedRows` lists the matched connections of a
build in iteration order together with their process names and raw counters;
the lemmas below reduce the drained loop to simple folds over this list. -/

structure MatchedRow where
  connection : Connection
  process_name : String
  info : ConnectionInfo
deriving DecidableEq

def matchedRows (u : List (Connection × ConnectionInfo))
    (l : List (Connection × String)) : List MatchedRow :=
  l.filterMap fun e => (lookupList e.1 u).map fun info => ⟨e.1, e.2, info⟩

/-- The map fold that the loop performs on the `processes` (respectively
`remote_addresses`) aggregate map, one `updList` per matched connection. -/
def ndMapFold {K : Type} [DecidableEq K] (old_state : UIState) (key : MatchedRow → K)
    (rows : List MatchedRow) (m : List (K × NetworkData)) : List (K × NetworkData) :=
  rows.foldl
    (fun m r => updList (key r) (networkDataUpdate r.info (prevAvg old_state r.connection))
      NetworkData.default m) m

/-- The `ConnectionData` entry a matched connection ends up with: the update of
the loop applied to the default-initialized aggregate. -/
def mkConnData (old_state : UIState) (r : MatchedRow) : ConnectionData :=
  connectionDataUpdate r.process_name r.info (prevAvg old_state r.connection)
    ConnectionData.default

/-- The map fold the loop performs on the `connections` aggregate map. -/
def connMapFold (old_state : UIState) (rows : List MatchedRow)
    (m : List (Connection × ConnectionData)) : List (Connection × ConnectionData) :=
  rows.foldl
    (fun m r => updList r.connection
      (connectionDataUpdate r.process_name r.info (prevAvg old_state r.connection))
      ConnectionData.default m) m

/-- The erasures the loop performs on the utilization map. -/
def utilFold (rows : List MatchedRow) (m : List (Connection × ConnectionInfo)) :
    List (Connection × ConnectionInfo) :=
  rows.foldl (fun m r => eraseList r.connection m) m

/-- Repeated application of `networkDataUpdate`, one application per row. -/
def applyRows (old_state : UIState) (rows : List MatchedRow) (d : NetworkData) :
    NetworkData :=
  rows.foldl (fun d r => networkDataUpdate r.info (prevAvg old_state r.connection) d) d

def rowPrevDown (old_state : UIState) (r : MatchedRow) : Nat :=
  (prevAvg old_state r.connection).1

def rowPrevUp (old_state : UIState) (r : MatchedRow) : Nat :=
  (prevAvg old_state r.connection).2

theorem rowPrevDown_def (old_state : UIState) :
    rowPrevDown old_state = fun r => (prevAvg old_state r.connection).1 := rfl

theorem rowPrevUp_def (old_state : UIState) :
    rowPrevUp old_state = fun r => (prevAvg old_state r.connection).2 := rfl

theorem matchedRows_cons_none {u : List (Connection × ConnectionInfo)}
    {e : Connection × String} (h : lookupList e.1 u = none)
    (l : List (Connection × String)) :
    matchedRows u (e :: l) = matchedRows u l := by
  simp [matchedRows, List.filterMap_cons, h]

theorem matchedRows_cons_some {u : List (Connection × ConnectionInfo)}
    {e : Connection × String} {info : ConnectionInfo}
    (h : lookupList e.1 u = some info) (l : List (Connection × String)) :
    matchedRows u (e :: l) = ⟨e.1, e.2, info⟩ :: matchedRows u l := by
  simp [matchedRows, List.filterMap_cons, h]

theorem matchedRows_congr {u u' : List (Connection × ConnectionInfo)}
    {l : List (Connection × String)}
    (h : ∀ e ∈ l, lookupList e.1 u' = lookupList e.1 u) :
    matchedRows u' l = matchedRows u l := by
  induction l with
  | nil => rfl
  | cons e l ih =>
    have he := h e (List.mem_cons_self _ _)
    have ht : ∀ e' ∈ l, lookupList e'.1 u' = lookupList e'.1 u :=
      fun e' h' => h e' (List.mem_cons_of_mem _ h')
    cases hv : lookupList e.1 u with
    | none => rw [matchedRows_cons_none hv, matchedRows_cons_none (he.trans hv), ih ht]
    | some info => rw [matchedRows_cons_some hv, matchedRows_cons_some (he.trans hv), ih ht]

theorem mem_matchedRows {u : List (Connection × ConnectionInfo)}
    {l : List (Connection × String)} {r : MatchedRow} :
    r ∈ matchedRows u l ↔
      (r.connection, r.process_name) ∈ l ∧ lookupList r.connection u = some r.info := by
  constructor
  · intro h
    obtain ⟨e, he, hf⟩ := List.mem_filterMap.mp h
    cases hv : lookupList e.1 u with
    | none => rw [hv] at hf; simp at hf
    | some info =>
      rw [hv] at hf
      have hf2 : (⟨e.1, e.2, info⟩ : MatchedRow) = r := by simpa using hf
      cases hf2
      exact ⟨he, hv⟩
  · intro ⟨hmem, hlk⟩
    exact List.mem_filterMap.mpr ⟨(r.connection, r.process_name), hmem, by simp [hlk]⟩

theorem keys_matchedRows_sublist (u : List (Connection × ConnectionInfo))
    (l : List (Connection × String)) :
    ((matchedRows u l).map (fun r => r.connection)).Sublist (l.map Prod.fst) := by
  induction l with
  | nil => simp [matchedRows]
  | cons e l ih =>
    cases hv : lookupList e.1 u with
    | none =>
      rw [matchedRows_cons_none hv]
      exact ih.trans (List.sublist_cons_self _ _)
    | some info =>
      rw [matchedRows_cons_some hv]
      simpa using ih.cons₂ e.1

theorem nodup_keys_matchedRows {u : List (Connection × ConnectionInfo)}
    {l : List (Connection × String)} (hl : (l.map Prod.fst).Nodup) :
    ((matchedRows u l).map (fun r => r.connection)).Nodup :=
  (keys_matchedRows_sublist u l).nodup hl

theorem applyRows_spec (old_state : UIState) (rows : List MatchedRow) (d : NetworkData) :
    applyRows old_state rows d =
      { total_bytes_downloaded :=
          d.total_bytes_downloaded + (rows.map (fun r => r.info.total_bytes_downloaded)).sum
        total_bytes_uploaded :=
          d.total_bytes_uploaded + (rows.map (fun r => r.info.total_bytes_uploaded)).sum
        prev_total_bytes_downloaded :=
          d.prev_total_bytes_downloaded + (rows.map (rowPrevDown old_state)).sum
        prev_total_bytes_uploaded :=
          d.prev_total_bytes_uploaded + (rows.map (rowPrevUp old_state)).sum
        connection_count := d.connection_count + rows.length } := by
  induction rows generalizing d with
  | nil => simp [applyRows]
  | cons r rows ih =>
    rw [show applyRows old_state (r :: rows) d =
          applyRows old_state rows (networkDataUpdate r.info (prevAvg old_state r.connection) d)
        from rfl, ih]
    simp only [networkDataUpdate, rowPrevDown, rowPrevUp, List.map_cons, List.sum_cons,
      List.length_cons, NetworkData.mk.injEq]
    omega

theorem lookupList_ndMapFold {K : Type} [DecidableEq K] (old_state : UIState)
    (key : MatchedRow → K) (rows : List MatchedRow) (m : List (K × NetworkData)) (k : K) :
    lookupList k (ndMapFold old_state key rows m) =
      if rows.filter (fun r => key r = k) = [] then lookupList k m
      else some (applyRows old_state (rows.filter (fun r => key r = k))
        ((lookupList k m).getD NetworkData.default)) := by
  induction rows generalizing m with
  | nil => simp [ndMapFold]
  | cons r rows ih =>
    rw [show ndMapFold old_state key (r :: rows) m =
          ndMapFold old_state key rows
            (updList (key r) (networkDataUpdate r.info (prevAvg old_state r.connection))
              NetworkData.default m) from rfl, ih]
    by_cases hk : key r = k
    · rw [List.filter_cons_of_pos (by simp [hk]), hk]
      simp only [lookupList_updList_self]
      have hcons : ∀ b : NetworkData,
          applyRows old_state (r :: rows.filter (fun r => key r = k)) b =
            applyRows old_state (rows.filter (fun r => key r = k))
              (networkDataUpdate r.info (prevAvg old_state r.connection) b) :=
        fun b => rfl
      by_cases he : rows.filter (fun r => key r = k) = []
      · simp [he, hcons, applyRows]
      · simp [he, hcons]
    · rw [List.filter_cons_of_neg (by simp [hk]),
        lookupList_updList_ne (Ne.symm hk)]

theorem connMapFold_eq_append (old_state : UIState) {rows : List MatchedRow}
    {m : List (Connection × ConnectionData)}
    (hn : (rows.map (fun r => r.connection)).Nodup)
    (hfresh : ∀ r ∈ rows, lookupList r.connection m = none) :
    connMapFold old_state rows m =
      m ++ rows.map (fun r => (r.connection, mkConnData old_state r)) := by
  induction rows generalizing m with
  | nil => simp [connMapFold]
  | cons r rows ih =>
    simp only [List.map_cons, List.nodup_cons] at hn
    have h1 : lookupList r.connection m = none := hfresh r (List.mem_cons_self _ _)
    rw [show connMapFold old_state (r :: rows) m =
          connMapFold old_state rows
            (updList r.connection
              (connectionDataUpdate r.process_name r.info (prevAvg old_state r.connection))
              ConnectionData.default m) from rfl,
      updList_of_none h1]
    rw [ih hn.2]
    · simp [mkConnData]
    · intro r' hr'
      have hne : r.connection ≠ r'.connection := by
        intro hh
        exact hn.1 (hh ▸ List.mem_map.mpr ⟨r', hr', rfl⟩)
      rw [lookupList_append_of_none (hfresh r' (List.mem_cons_of_mem _ hr'))]
      simp [lookupList, hne]

theorem lookupList_utilFold_of_none {rows : List MatchedRow}
    {m : List (Connection × ConnectionInfo)} {k : Connection}
    (h : lookupList k m = none) : lookupList k (utilFold rows m) = none := by
  induction rows generalizing m with
  | nil => exact h
  | cons r rows ih =>
    exact ih (lookupList_eraseList_of_none h)

theorem lookupList_utilFold_of_not_mem {rows : List MatchedRow}
    {m : List (Connection × ConnectionInfo)} {k : Connection}
    (h : k ∉ rows.map (fun r => r.connection)) :
    lookupList k (utilFold rows m) = lookupList k m := by
  induction rows generalizing m with
  | nil => rfl
  | cons r rows ih =>
    simp only [List.map_cons, List.mem_cons, not_or] at h
    rw [show utilFold (r :: rows) m = utilFold rows (eraseList r.connection m) from rfl,
      ih h.2, lookupList_eraseList_ne h.1]

theorem lookupList_utilFold_of_mem {rows : List MatchedRow}
    {m : List (Connection × ConnectionInfo)} {k : Connection}
    (hn : (m.map Prod.fst).Nodup) (h : k ∈ rows.map (fun r => r.connection)) :
    lookupList k (utilFold rows m) = none := by
  induction rows generalizing m with
  | nil => simp at h
  | cons r rows ih =>
    rw [show utilFold (r :: rows) m = utilFold rows (eraseList r.connection m) from rfl]
    simp only [List.map_cons, List.mem_cons] at h
    by_cases hmem : k ∈ rows.map (fun r => r.connection)
    · exact ih (nodup_keys_eraseList hn) hmem
    · rcases h with h | h
      · subst h
        exact lookupList_utilFold_of_none (lookupList_eraseList_self hn)
      · exact absurd h hmem

/-- The loop of `UIState::new`, started from any accumulator, equals the
simple folds over the matched rows: one `updList` per matched connection on
each aggregate map, one addition per matched connection on each total, one
erasure per matched connection on the utilization map.  Requires the `HashMap`
invariant that the keys of `connections_to_procs` are distinct. -/
theorem foldl_step_char (old_state : UIState) (l : List (Connection × String))
    (acc : BuildAcc) (hl : (l.map Prod.fst).Nodup) :
    (l.foldl (UIState.step old_state) acc).processes
        = ndMapFold old_state (fun r => r.process_name) (matchedRows acc.utilization l)
            acc.processes
    ∧ (l.foldl (UIState.step old_state) acc).remote_addresses
        = ndMapFold old_state (fun r => r.connection.remote_socket.ip)
            (matchedRows acc.utilization l) acc.remote_addresses
    ∧ (l.foldl (UIState.step old_state) acc).connections
        = connMapFold old_state (matchedRows acc.utilization l) acc.connections
    ∧ (l.foldl (UIState.step old_state) acc).total_bytes_downloaded
        = acc.total_bytes_downloaded
            + ((matchedRows acc.utilization l).map
                (fun r => r.info.total_bytes_downloaded)).sum
    ∧ (l.foldl (UIState.step old_state) acc).total_bytes_uploaded
        = acc.total_bytes_uploaded
            + ((matchedRows acc.utilization l).map
                (fun r => r.info.total_bytes_uploaded)).sum
    ∧ (l.foldl (UIState.step old_state) acc).utilization
        = utilFold (matchedRows acc.utilization l) acc.utilization := by
  revert hl
  induction l generalizing acc with
  | nil =>
    intro hl
    simp [matchedRows, ndMapFold, connMapFold, utilFold]
  | cons e l ih =>
    intro hl
    simp only [List.map_cons, List.nodup_cons] at hl
    obtain ⟨he, hl'⟩ := hl
    rw [List.foldl_cons]
    cases hlk : lookupList e.1 acc.utilization with
    | none =>
      have hstep : UIState.step old_state acc e = acc := by
        simp [UIState.step, hlk]
      rw [hstep, matchedRows_cons_none hlk]
      exact ih acc hl'
    | some info =>
      have hstep : UIState.step old_state acc e =
          { processes := updList e.2 (networkDataUpdate info (prevAvg old_state e.1))
              NetworkData.default acc.processes
            remote_addresses := updList e.1.remote_socket.ip
              (networkDataUpdate info (prevAvg old_state e.1)) NetworkData.default
              acc.remote_addresses
            connections := updList e.1
              (connectionDataUpdate e.2 info (prevAvg old_state e.1))
              ConnectionData.default acc.connections
            total_bytes_downloaded := acc.total_bytes_downloaded + info.total_bytes_downloaded
            total_bytes_uploaded := acc.total_bytes_uploaded + info.total_bytes_uploaded
            utilization := eraseList e.1 acc.utilization } := by
        simp [UIState.step, hlk]
      have hcong : matchedRows (eraseList e.1 acc.utilization) l
          = matchedRows acc.utilization l := by
        apply matchedRows_congr
        intro e' he'
        have hne : e'.1 ≠ e.1 := by
          intro hh
          exact he (hh ▸ List.mem_map.mpr ⟨e', he', rfl⟩)
        exact lookupList_eraseList_ne hne _
      rw [hstep, matchedRows_cons_some hlk]
      have ihx := ih
        { processes := updList e.2 (networkDataUpdate info (prevAvg old_state e.1))
            NetworkData.default acc.processes
          remote_addresses := updList e.1.remote_socket.ip
            (networkDataUpdate info (prevAvg old_state e.1)) NetworkData.default
            acc.remote_addresses
          connections := updList e.1
            (connectionDataUpdate e.2 info (prevAvg old_state e.1))
            ConnectionData.default acc.connections
          total_bytes_downloaded := acc.total_bytes_downloaded + info.total_bytes_downloaded
          total_bytes_uploaded := acc.total_bytes_uploaded + info.total_bytes_uploaded
          utilization := eraseList e.1 acc.utilization } hl'
      simp only [hcong] at ihx
      refine ⟨?_, ?_, ?_, ?_, ?_, ?_⟩
      · exact ihx.1
      · exact ihx.2.1
      · exact ihx.2.2.1
      · rw [List.map_cons, List.sum_cons, ← Nat.add_assoc]
        exact ihx.2.2.2.1
      · rw [List.map_cons, List.sum_cons, ← Nat.add_assoc]
        exact ihx.2.2.2.2.1
      · exact ihx.2.2.2.2.2

/-! ### Corollaries about `UIState.new` itself -/

theorem new_processes_lookup (l : List (Connection × String)) (u : Utilization)
    (old_state : UIState) (hl : (l.map Prod.fst).Nodup) (name : String) :
    lookupList name (UIState.new l u old_state).processes =
      if (matchedRows u.connections l).filter (fun r => r.process_name = name) = [] then
        none
      else
        some (applyRows old_state
          ((matchedRows u.connections l).filter (fun r => r.process_name = name))
          NetworkData.default) := by
  have h := (foldl_step_char old_state l (initAcc u) hl).1
  rw [show (UIState.new l u old_state).processes
        = (l.foldl (UIState.step old_state) (initAcc u)).processes from rfl, h,
    show (initAcc u).utilization = u.connections from rfl,
    show (initAcc u).processes = ([] : List (String × NetworkData)) from rfl,
    lookupList_ndMapFold]
  simp [lookupList]

theorem new_remote_addresses_lookup (l : List (Connection × String)) (u : Utilization)
    (old_state : UIState) (hl : (l.map Prod.fst).Nodup) (a : Nat) :
    lookupList a (UIState.new l u old_state).remote_addresses =
      if (matchedRows u.connections l).filter
          (fun r => r.connection.remote_socket.ip = a) = [] then
        none
      else
        some (applyRows old_state
          ((matchedRows u.connections l).filter
            (fun r => r.connection.remote_socket.ip = a))
          NetworkData.default) := by
  have h := (foldl_step_char old_state l (initAcc u) hl).2.1
  rw [show (UIState.new l u old_state).remote_addresses
        = (l.foldl (UIState.step old_state) (initAcc u)).remote_addresses from rfl, h,
    show (initAcc u).utilization = u.connections from rfl,
    show (initAcc u).remote_addresses = ([] : List (Nat × NetworkData)) from rfl,
    lookupList_ndMapFold]
  simp [lookupList]

theorem new_connections_eq (l : List (Connection × String)) (u : Utilization)
    (old_state : UIState) (hl : (l.map Prod.fst).Nodup) :
    (UIState.new l u old_state).connections =
      (matchedRows u.connections l).map
        (fun r => (r.connection, mkConnData old_state r)) := by
  have h := (foldl_step_char old_state l (initAcc u) hl).2.2.1
  rw [show (UIState.new l u old_state).connections
        = (l.foldl (UIState.step old_state) (initAcc u)).connections from rfl, h,
    show (initAcc u).utilization = u.connections from rfl,
    show (initAcc u).connections = ([] : List (Connection × ConnectionData)) from rfl,
    @connMapFold_eq_append old_state (matchedRows u.connections l) []
      (nodup_keys_matchedRows hl) (fun r hr => rfl)]
  simp

theorem new_total_bytes_downloaded (l : List (Connection × String)) (u : Utilization)
    (old_state : UIState) (hl : (l.map Prod.fst).Nodup) :
    (UIState.new l u old_state).total_bytes_downloaded =
      ((matchedRows u.connections l).map (fun r => r.info.total_bytes_downloaded)).sum := by
  have h := (foldl_step_char old_state l (initAcc u) hl).2.2.2.1
  rw [show (UIState.new l u old_state).total_bytes_downloaded
        = (l.foldl (UIState.step old_state) (initAcc u)).total_bytes_downloaded from rfl, h,
    show (initAcc u).utilization = u.connections from rfl,
    show (initAcc u).total_bytes_downloaded = 0 from rfl, Nat.zero_add]

theorem new_total_bytes_uploaded (l : List (Connection × String)) (u : Utilization)
    (old_state : UIState) (hl : (l.map Prod.fst).Nodup) :
    (UIState.new l u old_state).total_bytes_uploaded =
      ((matchedRows u.connections l).map (fun r => r.info.total_bytes_uploaded)).sum := by
  have h := (foldl_step_char old_state l (initAcc u) hl).2.2.2.2.1
  rw [show (UIState.new l u old_state).total_bytes_uploaded
        = (l.foldl (UIState.step old_state) (initAcc u)).total_bytes_uploaded from rfl, h,
    show (initAcc u).utilization = u.connections from rfl,
    show (initAcc u).total_bytes_uploaded = 0 from rfl, Nat.zero_add]

theorem finalUtilization_lookup (l : List (Connection × String)) (u : Utilization)
    (old_state : UIState) (hl : (l.map Prod.fst).Nodup)
    (hu : (u.connections.map Prod.fst).Nodup) (c : Connection) :
    lookupList c (UIState.finalUtilization l u old_state) =
      if c ∈ (matchedRows u.connections l).map (fun r => r.connection) then none
      else lookupList c u.connections := by
  have h := (foldl_step_char old_state l (initAcc u) hl).2.2.2.2.2
  rw [show UIState.finalUtilization l u old_state
        = (l.foldl (UIState.step old_state) (initAcc u)).utilization from rfl, h,
    show (initAcc u).utilization = u.connections from rfl]
  by_cases hmem : c ∈ (matchedRows u.connections l).map (fun r => r.connection)
  · rw [if_pos hmem]
    exact lookupList_utilFold_of_mem hu hmem
  · rw [if_neg hmem]
    exact lookupList_utilFold_of_not_mem hmem

theorem nodup_keys_ndMapFold {K : Type} [DecidableEq K] (old_state : UIState)
    (key : MatchedRow → K) (rows : List MatchedRow) {m : List (K × NetworkData)}
    (hm : (m.map Prod.fst).Nodup) :
    ((ndMapFold old_state key rows m).map Prod.fst).Nodup := by
  induction rows generalizing m with
  | nil => exact hm
  | cons r rows ih =>
    exact ih (nodup_keys_updList hm _ _)

theorem nodup_keys_new_processes (l : List (Connection × String)) (u : Utilization)
    (old_state : UIState) (hl : (l.map Prod.fst).Nodup) :
    ((UIState.new l u old_state).processes.map Prod.fst).Nodup := by
  rw [show (UIState.new l u old_state).processes
        = (l.foldl (UIState.step old_state) (initAcc u)).processes from rfl,
    (foldl_step_char old_state l (initAcc u) hl).1]
  exact nodup_keys_ndMapFold _ _ _ (by simp [initAcc])

theorem nodup_keys_new_remote_addresses (l : List (Connection × String)) (u : Utilization)
    (old_state : UIState) (hl : (l.map Prod.fst).Nodup) :
    ((UIState.new l u old_state).remote_addresses.map Prod.fst).Nodup := by
  rw [show (UIState.new l u old_state).remote_addresses
        = (l.foldl (UIState.step old_state) (initAcc u)).remote_addresses from rfl,
    (foldl_step_char old_state l (initAcc u) hl).2.1]
  exact nodup_keys_ndMapFold _ _ _ (by simp [initAcc])

theorem nodup_keys_new_connections (l : List (Connection × String)) (u : Utilization)
    (old_state : UIState) (hl : (l.map Prod.fst).Nodup) :
    ((UIState.new l u old_state).connections.map Prod.fst).Nodup := by
  rw [new_connections_eq l u old_state hl, List.map_map]
  exact nodup_keys_matchedRows hl

theorem new_connections_lookup (l : List (Connection × String)) (u : Utilization)
    (old_state : UIState) (hl : (l.map Prod.fst).Nodup) {c : Connection} {p : String}
    {info : ConnectionInfo} (hmem : (c, p) ∈ l)
    (hinfo : lookupList c u.connections = some info) :
    lookupList c (UIState.new l u old_state).connections =
      some (mkConnData old_state ⟨c, p, info⟩) := by
  rw [new_connections_eq l u old_state hl]
  apply lookupList_of_mem_nodup
  · rw [List.map_map]
    exact nodup_keys_matchedRows hl
  · exact List.mem_map.mpr ⟨⟨c, p, info⟩, mem_matchedRows.mpr ⟨hmem, hinfo⟩, rfl⟩

theorem new_connections_lookup_none (l : List (Connection × String)) (u : Utilization)
    (old_state : UIState) (hl : (l.map Prod.fst).Nodup) {c : Connection}
    (h : c ∉ (matchedRows u.connections l).map (fun r => r.connection)) :
    lookupList c (UIState.new l u old_state).connections = none := by
  rw [new_connections_eq l u old_state hl, lookupList_eq_none, List.map_map]
  exact h

/-! ### Helper lemmas for the claims -/

theorem rneNat_of_lt {x : Nat} (hx : x < 2 ^ 24) : rneNat x = x := by
  unfold rneNat
  rw [if_pos hx]

theorem toF32_of_lt {x : Nat} (hx : x < 2 ^ 24) : toF32 x = some x := by
  have h1 : x ≤ maxF32 := le_trans (Nat.le_of_lt hx) (by norm_num [maxF32])
  unfold toF32
  rw [rneNat_of_lt hx, if_pos h1]

/-- The branch of `calc_avg_bandwidth` where both casts are finite. -/
theorem calc_avg_bandwidth_finite {p c fp fc : Nat} (hp : p ≠ 0)
    (h1 : toF32 p = some fp) (h2 : toF32 c = some fc) :
    calc_avg_bandwidth p c = rneNat (fp + fc) / 2 := by
  unfold calc_avg_bandwidth
  rw [if_neg hp, h1, h2]

/-- Below `2 ^ 24` for `p + c` every binary32 step of `calc_avg_bandwidth` is
exact except the final truncating cast, so the result is floor division. -/
theorem calc_avg_bandwidth_small {p c : Nat} (h : p ≠ 0) (hpc : p + c < 2 ^ 24) :
    calc_avg_bandwidth p c = (p + c) / 2 := by
  have hp : p < 2 ^ 24 := Nat.lt_of_le_of_lt (Nat.le_add_right p c) hpc
  have hc : c < 2 ^ 24 := Nat.lt_of_le_of_lt (Nat.le_add_left c p) hpc
  rw [calc_avg_bandwidth_finite h (toF32_of_lt hp) (toF32_of_lt hc),
    rneNat_of_lt hpc]

/-- The non-zero branch of `calc_avg_bandwidth` computes the floor (truncation
toward zero) of the exact exponential moving average `p * 0.5 + c * 0.5`
whenever `p + c < 2 ^ 24`, i.e. whenever the float computation is exact before
the truncating cast. -/
theorem calc_avg_bandwidth_eq_floor {p c : Nat} (h : p ≠ 0) (hpc : p + c < 2 ^ 24) :
    (calc_avg_bandwidth p c : ℤ) = ⌊(p : ℚ) * (1 / 2) + (c : ℚ) * (1 / 2)⌋ := by
  have hx : (p : ℚ) * (1 / 2) + (c : ℚ) * (1 / 2) = ((p + c : ℕ) : ℚ) / ((2 : ℕ) : ℚ) := by
    push_cast
    ring
  rw [calc_avg_bandwidth_small h hpc, hx,
    ← Int.natCast_floor_eq_floor (by positivity), Nat.floor_div_eq_div]

/-- Above `2 ^ 24` the rounded binary32 addition shows: at
`prev = 16777218 = 2 ^ 24 + 2` (exactly representable) and `curr = 1` the sum
value `8388609.5` rounds to nearest-even `8388610`, one more than the floor
`8388609` of the exact average. -/
theorem calc_avg_bandwidth_rounds_to_even :
    calc_avg_bandwidth 16777218 1 = 8388610
      ∧ (16777218 + 1) / 2 = 8388609 := by
  have hl19 : Nat.log2 16777219 = 24 := by
    rw [Nat.log2_eq_log_two]
    exact Nat.log_eq_of_pow_le_of_lt_pow (by norm_num) (by norm_num)
  have hl18 : Nat.log2 16777218 = 24 := by
    rw [Nat.log2_eq_log_two]
    exact Nat.log_eq_of_pow_le_of_lt_pow (by norm_num) (by norm_num)
  constructor
  · have h18 : rneNat 16777218 = 16777218 := by
      unfold rneNat
      rw [if_neg (by norm_num), hl18]
      norm_num [rneDiv]
    have h18f : toF32 16777218 = some 16777218 := by
      unfold toF32
      rw [h18, if_pos (by norm_num [maxF32])]
    have h19 : rneNat 16777219 = 16777220 := by
      unfold rneNat
      rw [if_neg (by norm_num), hl19]
      norm_num [rneDiv]
    rw [calc_avg_bandwidth_finite (by norm_num) h18f (toF32_of_lt (by norm_num)),
      show (16777218 : Nat) + 1 = 16777219 from rfl, h19]
  · norm_num

/-- In a list whose images under `key` are distinct, filtering for the key of a
member returns exactly that member. -/
theorem filter_key_eq_singleton {α κ : Type} [DecidableEq κ] (key : α → κ)
    {l : List α} (hn : (l.map key).Nodup) {x : α} (hx : x ∈ l) :
    l.filter (fun y => key y = key x) = [x] := by
  induction l with
  | nil => simp at hx
  | cons a l ih =>
    simp only [List.map_cons, List.nodup_cons] at hn
    rcases List.mem_cons.mp hx with h | hx2
    · subst h
      rw [List.filter_cons_of_pos (by simp)]
      have hnil : l.filter (fun y => key y = key x) = [] := by
        rw [List.filter_eq_nil_iff]
        intro y hy
        simp only [decide_eq_true_eq]
        intro hk
        exact hn.1 (hk ▸ List.mem_map.mpr ⟨y, hy, rfl⟩)
      rw [hnil]
    · have hne : key a ≠ key x :=
        fun hk => hn.1 (hk ▸ List.mem_map.mpr ⟨x, hx2, rfl⟩)
      rw [List.filter_cons_of_neg (by simp [hne]), ih hn.2 hx2]

/-! ### Concrete inputs used by the witnesses -/

def exConn1 : Connection := ⟨⟨10, 1000⟩, ⟨20, 80⟩⟩

/-- Same remote ip as `exConn1`, different remote port. -/
def exConn2 : Connection := ⟨⟨10, 1001⟩, ⟨20, 443⟩⟩

def exConn3 : Connection := ⟨⟨10, 1002⟩, ⟨30, 80⟩⟩

def exInfo1 : ConnectionInfo := ⟨"eth0", 100, 50⟩

def exInfo2 : ConnectionInfo := ⟨"eth0", 200, 70⟩

def exUtil : Utilization := ⟨[(exConn1, exInfo1), (exConn2, exInfo2)]⟩

/-- `exConn3` is known to a process but absent from the utilization snapshot. -/
def exProcs : List (Connection × String) :=
  [(exConn1, "procA"), (exConn2, "procA"), (exConn3, "procB")]

def exOld : UIState := ⟨[], [], [], 0, 0⟩

/-! ### The claims -/

/-- Claim C1, counterexample: with previous smoothed average 1 and current
counter 2 the accessor returns `calc_avg_bandwidth 1 2 = 1`, not
`round(1*0.5 + 2*0.5) = 2`: the source truncates the float value toward zero
rather than rounding it. -/
theorem c1_round_counterexample :
    ¬ ((({ prev_total_bytes_downloaded := 1, total_bytes_downloaded := 2 } :
          ConnectionData).get_avg_bytes_downloaded : ℤ)
        = round (((1 : Nat) : ℚ) * (1 / 2) + ((2 : Nat) : ℚ) * (1 / 2))) := by
  have h1 : ({ prev_total_bytes_downloaded := 1, total_bytes_downloaded := 2 } :
      ConnectionData).get_avg_bytes_downloaded = 1 := rfl
  rw [h1]
  norm_num [round_eq]

/-- Claim C1, amended: for every aggregate (`ConnectionData` for Connection,
`NetworkData` for Process and Remote-Address) whose previous smoothed average
`p` is non-zero and whose counters satisfy `p + c < 2 ^ 24` (so that every
binary32 step before the final cast is exact), the avg accessors return the
exponential moving average `p * 0.5 + c * 0.5` truncated toward zero (floor),
not rounded to nearest, independently for downloaded and uploaded bytes; for
larger counters the nearest-even rounding of the float addition and casts
applies (see `calc_avg_bandwidth_rounds_to_even`). -/
theorem c1_avg_truncated_ema (d : ConnectionData) (n : NetworkData) :
    (d.prev_total_bytes_downloaded ≠ 0 →
      d.prev_total_bytes_downloaded + d.total_bytes_downloaded < 2 ^ 24 →
      (d.get_avg_bytes_downloaded : ℤ)
        = ⌊(d.prev_total_bytes_downloaded : ℚ) * (1 / 2)
            + (d.total_bytes_downloaded : ℚ) * (1 / 2)⌋)
    ∧ (d.prev_total_bytes_uploaded ≠ 0 →
      d.prev_total_bytes_uploaded + d.total_bytes_uploaded < 2 ^ 24 →
      (d.get_avg_bytes_uploaded : ℤ)
        = ⌊(d.prev_total_bytes_uploaded : ℚ) * (1 / 2)
            + (d.total_bytes_uploaded : ℚ) * (1 / 2)⌋)
    ∧ (n.prev_total_bytes_downloaded ≠ 0 →
      n.prev_total_bytes_downloaded + n.total_bytes_downloaded < 2 ^ 24 →
      (n.get_avg_bytes_downloaded : ℤ)
        = ⌊(n.prev_total_bytes_downloaded : ℚ) * (1 / 2)
            + (n.total_bytes_downloaded : ℚ) * (1 / 2)⌋)
    ∧ (n.prev_total_bytes_uploaded ≠ 0 →
      n.prev_total_bytes_uploaded + n.total_bytes_uploaded < 2 ^ 24 →
      (n.get_avg_bytes_uploaded : ℤ)
        = ⌊(n.prev_total_bytes_uploaded : ℚ) * (1 / 2)
            + (n.total_bytes_uploaded : ℚ) * (1 / 2)⌋) :=
  ⟨fun h hr => calc_avg_bandwidth_eq_floor h hr,
   fun h hr => calc_avg_bandwidth_eq_floor h hr,
   fun h hr => calc_avg_bandwidth_eq_floor h hr,
   fun h hr => calc_avg_bandwidth_eq_floor h hr⟩

/-- Witness for C1 at `p = 3`, `c = 6`: the accessor returns `⌊4.5⌋ = 4`. -/
theorem c1_avg_truncated_ema_witness :
    ((3 : Nat) ≠ 0 ∧ (3 : Nat) + 6 < 2 ^ 24)
    ∧ ((({ prev_total_bytes_downloaded := 3, total_bytes_downloaded := 6 } :
          ConnectionData).get_avg_bytes_downloaded : ℤ)
        = ⌊((3 : Nat) : ℚ) * (1 / 2) + ((6 : Nat) : ℚ) * (1 / 2)⌋) :=
  ⟨⟨by decide, by decide⟩,
   (c1_avg_truncated_ema
      { prev_total_bytes_downloaded := 3, total_bytes_downloaded := 6 }
      NetworkData.default).1 (by decide) (by decide)⟩

/-- Claim C2: a connection processed this tick that is absent from
`previous_state.connections` gets a Connection aggregate with zero
`prev_total_*` fields, so its smoothed average in both directions is exactly
the raw current-tick counter. -/
theorem c2_cold_start (l : List (Connection × String)) (u : Utilization)
    (old_state : UIState) (hl : (l.map Prod.fst).Nodup) {c : Connection} {p : String}
    {info : ConnectionInfo} (hmem : (c, p) ∈ l)
    (hinfo : lookupList c u.connections = some info)
    (habsent : lookupList c old_state.connections = none) :
    ∃ cd : ConnectionData,
      lookupList c (UIState.new l u old_state).connections = some cd
      ∧ cd.prev_total_bytes_downloaded = 0
      ∧ cd.prev_total_bytes_uploaded = 0
      ∧ cd.get_avg_bytes_downloaded = info.total_bytes_downloaded
      ∧ cd.get_avg_bytes_uploaded = info.total_bytes_uploaded := by
  refine ⟨mkConnData old_state ⟨c, p, info⟩,
    new_connections_lookup l u old_state hl hmem hinfo, ?_, ?_, ?_, ?_⟩ <;>
    simp [mkConnData, connectionDataUpdate, ConnectionData.default, prevAvg, habsent,
      ConnectionData.get_avg_bytes_downloaded, ConnectionData.get_avg_bytes_uploaded,
      calc_avg_bandwidth]

/-- Witness for C2: `exConn1` is new this tick and its averages equal the raw
counters 100 and 50. -/
theorem c2_cold_start_witness :
    ((exProcs.map Prod.fst).Nodup
      ∧ lookupList exConn1 exUtil.connections = some exInfo1
      ∧ lookupList exConn1 exOld.connections = none)
    ∧ (∃ cd : ConnectionData,
        lookupList exConn1 (UIState.new exProcs exUtil exOld).connections = some cd
        ∧ cd.prev_total_bytes_downloaded = 0
        ∧ cd.prev_total_bytes_uploaded = 0
        ∧ cd.get_avg_bytes_downloaded = exInfo1.total_bytes_downloaded
        ∧ cd.get_avg_bytes_uploaded = exInfo1.total_bytes_uploaded) :=
  ⟨⟨by decide, by decide, by decide⟩,
   c2_cold_start exProcs exUtil exOld (by decide)
     (by decide : (exConn1, "procA") ∈ exProcs) (by decide) (by decide)⟩

/-- Claim C3: the top-level totals of a freshly built state equal the sums of
the corresponding current-tick counters over all Connection aggregates. -/
theorem c3_global_totals (l : List (Connection × String)) (u : Utilization)
    (old_state : UIState) (hl : (l.map Prod.fst).Nodup) :
    (UIState.new l u old_state).total_bytes_downloaded
      = ((UIState.new l u old_state).connections.map
          (fun e => e.2.total_bytes_downloaded)).sum
    ∧ (UIState.new l u old_state).total_bytes_uploaded
      = ((UIState.new l u old_state).connections.map
          (fun e => e.2.total_bytes_uploaded)).sum := by
  constructor
  · rw [new_total_bytes_downloaded l u old_state hl, new_connections_eq l u old_state hl,
      List.map_map]
    simp [Function.comp_def, mkConnData, connectionDataUpdate, ConnectionData.default]
  · rw [new_total_bytes_uploaded l u old_state hl, new_connections_eq l u old_state hl,
      List.map_map]
    simp [Function.comp_def, mkConnData, connectionDataUpdate, ConnectionData.default]

/-- Witness for C3 on the concrete two-matched-connection build. -/
theorem c3_global_totals_witness :
    (exProcs.map Prod.fst).Nodup
    ∧ ((UIState.new exProcs exUtil exOld).total_bytes_downloaded
        = ((UIState.new exProcs exUtil exOld).connections.map
            (fun e => e.2.total_bytes_downloaded)).sum
      ∧ (UIState.new exProcs exUtil exOld).total_bytes_uploaded
        = ((UIState.new exProcs exUtil exOld).connections.map
            (fun e => e.2.total_bytes_uploaded)).sum) :=
  ⟨by decide, c3_global_totals exProcs exUtil exOld (by decide)⟩

/-- Claim C4: the `prev_total_*` fields of every Process aggregate equal the
sums of the `prev_total_*` fields of the Connection aggregates attributed to
that process name this tick, and likewise for every Remote-Address aggregate
with the Connection aggregates keyed by a connection with that remote
address. -/
theorem c4_prev_additivity (l : List (Connection × String)) (u : Utilization)
    (old_state : UIState) (hl : (l.map Prod.fst).Nodup) :
    (∀ q ∈ (UIState.new l u old_state).processes,
        q.2.prev_total_bytes_downloaded
          = (((UIState.new l u old_state).connections.filter
              (fun e => e.2.process_name = q.1)).map
              (fun e => e.2.prev_total_bytes_downloaded)).sum
        ∧ q.2.prev_total_bytes_uploaded
          = (((UIState.new l u old_state).connections.filter
              (fun e => e.2.process_name = q.1)).map
              (fun e => e.2.prev_total_bytes_uploaded)).sum)
    ∧ (∀ q ∈ (UIState.new l u old_state).remote_addresses,
        q.2.prev_total_bytes_downloaded
          = (((UIState.new l u old_state).connections.filter
              (fun e => e.1.remote_socket.ip = q.1)).map
              (fun e => e.2.prev_total_bytes_downloaded)).sum
        ∧ q.2.prev_total_bytes_uploaded
          = (((UIState.new l u old_state).connections.filter
              (fun e => e.1.remote_socket.ip = q.1)).map
              (fun e => e.2.prev_total_bytes_uploaded)).sum) := by
  constructor
  · rintro ⟨name, nd⟩ hq
    have hlk := lookupList_of_mem_nodup (nodup_keys_new_processes l u old_state hl) hq
    rw [new_processes_lookup l u old_state hl name] at hlk
    by_cases hrs : (matchedRows u.connections l).filter (fun r => r.process_name = name) = []
    · rw [if_pos hrs] at hlk
      exact absurd hlk (by simp)
    · rw [if_neg hrs] at hlk
      injection hlk with h
      rw [← h, applyRows_spec, new_connections_eq l u old_state hl]
      constructor <;>
      · rw [List.filter_map]
        simp [Function.comp_def, mkConnData, connectionDataUpdate, ConnectionData.default,
          NetworkData.default, rowPrevDown_def, rowPrevUp_def]
  · rintro ⟨addr, nd⟩ hq
    have hlk := lookupList_of_mem_nodup (nodup_keys_new_remote_addresses l u old_state hl) hq
    rw [new_remote_addresses_lookup l u old_state hl addr] at hlk
    by_cases hrs : (matchedRows u.connections l).filter
        (fun r => r.connection.remote_socket.ip = addr) = []
    · rw [if_pos hrs] at hlk
      exact absurd hlk (by simp)
    · rw [if_neg hrs] at hlk
      injection hlk with h
      rw [← h, applyRows_spec, new_connections_eq l u old_state hl]
      constructor <;>
      · rw [List.filter_map]
        simp [Function.comp_def, mkConnData, connectionDataUpdate, ConnectionData.default,
          NetworkData.default, rowPrevDown_def, rowPrevUp_def]

/-- Witness for C4 on the concrete build, picking out the components of the
conjunction at the concrete state. -/
theorem c4_prev_additivity_witness :
    (exProcs.map Prod.fst).Nodup
    ∧ (∀ q ∈ (UIState.new exProcs exUtil exOld).processes,
        q.2.prev_total_bytes_downloaded
          = (((UIState.new exProcs exUtil exOld).connections.filter
              (fun e => e.2.process_name = q.1)).map
              (fun e => e.2.prev_total_bytes_downloaded)).sum
        ∧ q.2.prev_total_bytes_uploaded
          = (((UIState.new exProcs exUtil exOld).connections.filter
              (fun e => e.2.process_name = q.1)).map
              (fun e => e.2.prev_total_bytes_uploaded)).sum) :=
  ⟨by decide, (c4_prev_additivity exProcs exUtil exOld (by decide)).1⟩

/-- Claim C7: an entity (process name, remote address, or connection) not
touched by any matched connection this tick has no entry in the corresponding
map of the new state; in particular entities present only in `previous_state`
are dropped, not carried over with zero values. -/
theorem c7_no_stale_entries (l : List (Connection × String)) (u : Utilization)
    (old_state : UIState) (hl : (l.map Prod.fst).Nodup) :
    (∀ name : String, (∀ r ∈ matchedRows u.connections l, r.process_name ≠ name) →
        lookupList name (UIState.new l u old_state).processes = none)
    ∧ (∀ a : Nat, (∀ r ∈ matchedRows u.connections l,
          r.connection.remote_socket.ip ≠ a) →
        lookupList a (UIState.new l u old_state).remote_addresses = none)
    ∧ (∀ c : Connection, (∀ r ∈ matchedRows u.connections l, r.connection ≠ c) →
        lookupList c (UIState.new l u old_state).connections = none) := by
  refine ⟨?_, ?_, ?_⟩
  · intro name h
    rw [new_processes_lookup l u old_state hl name, if_pos]
    rw [List.filter_eq_nil_iff]
    intro r hr
    simp [h r hr]
  · intro a h
    rw [new_remote_addresses_lookup l u old_state hl a, if_pos]
    rw [List.filter_eq_nil_iff]
    intro r hr
    simp [h r hr]
  · intro c h
    apply new_connections_lookup_none l u old_state hl
    intro hmem
    obtain ⟨r, hr, hrc⟩ := List.mem_map.mp hmem
    exact h r hr hrc

/-- Witness for C7: process name "ghost", remote address 99 and connection
`exConn3` are touched by no matched connection this tick; all three are absent
from the new state. -/
theorem c7_no_stale_entries_witness :
    (exProcs.map Prod.fst).Nodup
    ∧ lookupList "ghost" (UIState.new exProcs exUtil exOld).processes = none
    ∧ lookupList 99 (UIState.new exProcs exUtil exOld).remote_addresses = none
    ∧ lookupList exConn3 (UIState.new exProcs exUtil exOld).connections = none :=
  ⟨by decide,
   (c7_no_stale_entries exProcs exUtil exOld (by decide)).1 "ghost" (by decide),
   (c7_no_stale_entries exProcs exUtil exOld (by decide)).2.1 99 (by decide),
   (c7_no_stale_entries exProcs exUtil exOld (by decide)).2.2 exConn3 (by decide)⟩

/-- Claim C8: `connection_count` of every Process aggregate is the number of
matched connections attributed to that process name this tick, and likewise
for every Remote-Address aggregate and the matched connections to that remote
address; counts are per tick, never summed across ticks. -/
theorem c8_connection_count (l : List (Connection × String)) (u : Utilization)
    (old_state : UIState) (hl : (l.map Prod.fst).Nodup) :
    (∀ q ∈ (UIState.new l u old_state).processes,
        q.2.connection_count
          = ((matchedRows u.connections l).filter
              (fun r => r.process_name = q.1)).length)
    ∧ (∀ q ∈ (UIState.new l u old_state).remote_addresses,
        q.2.connection_count
          = ((matchedRows u.connections l).filter
              (fun r => r.connection.remote_socket.ip = q.1)).length) := by
  constructor
  · rintro ⟨name, nd⟩ hq
    have hlk := lookupList_of_mem_nodup (nodup_keys_new_processes l u old_state hl) hq
    rw [new_processes_lookup l u old_state hl name] at hlk
    by_cases hrs : (matchedRows u.connections l).filter (fun r => r.process_name = name) = []
    · rw [if_pos hrs] at hlk
      exact absurd hlk (by simp)
    · rw [if_neg hrs] at hlk
      injection hlk with h
      rw [← h, applyRows_spec]
      simp [NetworkData.default]
  · rintro ⟨addr, nd⟩ hq
    have hlk := lookupList_of_mem_nodup (nodup_keys_new_remote_addresses l u old_state hl) hq
    rw [new_remote_addresses_lookup l u old_state hl addr] at hlk
    by_cases hrs : (matchedRows u.connections l).filter
        (fun r => r.connection.remote_socket.ip = addr) = []
    · rw [if_pos hrs] at hlk
      exact absurd hlk (by simp)
    · rw [if_neg hrs] at hlk
      injection hlk with h
      rw [← h, applyRows_spec]
      simp [NetworkData.default]

/-- Witness for C8: process "procA" owns both matched connections
(count 2 = length of the matched-row filter). -/
theorem c8_connection_count_witness :
    (exProcs.map Prod.fst).Nodup
    ∧ (∀ q ∈ (UIState.new exProcs exUtil exOld).processes,
        q.2.connection_count
          = ((matchedRows exUtil.connections exProcs).filter
              (fun r => r.process_name = q.1)).length) :=
  ⟨by decide, (c8_connection_count exProcs exUtil exOld (by decide)).1⟩

/-- Claim C5: every connection present in both `connections_to_procs` and the
utilization map is removed from the utilization map and folded into the new
state exactly once (one Connection entry, carrying exactly the raw counters);
utilization entries whose connection is absent from `connections_to_procs` are
left unchanged, and no error arises. -/
theorem c5_utilization_consumed (l : List (Connection × String)) (u : Utilization)
    (old_state : UIState) (hl : (l.map Prod.fst).Nodup)
    (hu : (u.connections.map Prod.fst).Nodup) :
    (∀ (c : Connection) (p : String) (info : ConnectionInfo),
        (c, p) ∈ l → lookupList c u.connections = some info →
        lookupList c (UIState.finalUtilization l u old_state) = none
        ∧ ((UIState.new l u old_state).connections.filter (fun e => e.1 = c)).length = 1
        ∧ (∃ cd : ConnectionData,
            lookupList c (UIState.new l u old_state).connections = some cd
            ∧ cd.total_bytes_downloaded = info.total_bytes_downloaded
            ∧ cd.total_bytes_uploaded = info.total_bytes_uploaded))
    ∧ (∀ c : Connection, c ∉ l.map Prod.fst →
        lookupList c (UIState.finalUtilization l u old_state)
          = lookupList c u.connections) := by
  constructor
  · intro c p info hmem hinfo
    have hrow : (⟨c, p, info⟩ : MatchedRow) ∈ matchedRows u.connections l :=
      mem_matchedRows.mpr ⟨hmem, hinfo⟩
    have hmemkeys : c ∈ (matchedRows u.connections l).map (fun r => r.connection) :=
      List.mem_map.mpr ⟨_, hrow, rfl⟩
    refine ⟨?_, ?_, ?_⟩
    · rw [finalUtilization_lookup l u old_state hl hu c, if_pos hmemkeys]
    · rw [new_connections_eq l u old_state hl, List.filter_map]
      have hsingle := filter_key_eq_singleton (fun r : MatchedRow => r.connection)
        (nodup_keys_matchedRows hl) hrow
      simp only [Function.comp_def]
      rw [show (matchedRows u.connections l).filter
            (fun x => decide ((x.connection, mkConnData old_state x).1 = c))
          = (matchedRows u.connections l).filter (fun y => decide (y.connection = c))
          from rfl, hsingle]
      simp
    · refine ⟨mkConnData old_state ⟨c, p, info⟩,
        new_connections_lookup l u old_state hl hmem hinfo, ?_, ?_⟩ <;>
        simp [mkConnData, connectionDataUpdate, ConnectionData.default]
  · intro c hc
    rw [finalUtilization_lookup l u old_state hl hu c, if_neg]
    intro hmemkeys
    exact hc ((keys_matchedRows_sublist u.connections l).subset hmemkeys)

/-- Witness for C5: `exConn1` is matched (consumed, folded once); the extra
utilization entry keyed by a connection outside `exProcs` survives untouched. -/
theorem c5_utilization_consumed_witness :
    ((exProcs.map Prod.fst).Nodup ∧ (exUtil.connections.map Prod.fst).Nodup
      ∧ (exConn1, "procA") ∈ exProcs
      ∧ lookupList exConn1 exUtil.connections = some exInfo1)
    ∧ (lookupList exConn1 (UIState.finalUtilization exProcs exUtil exOld) = none
      ∧ ((UIState.new exProcs exUtil exOld).connections.filter
          (fun e => e.1 = exConn1)).length = 1
      ∧ (∃ cd : ConnectionData,
          lookupList exConn1 (UIState.new exProcs exUtil exOld).connections = some cd
          ∧ cd.total_bytes_downloaded = exInfo1.total_bytes_downloaded
          ∧ cd.total_bytes_uploaded = exInfo1.total_bytes_uploaded)) :=
  ⟨⟨by decide, by decide, by decide, by decide⟩,
   (c5_utilization_consumed exProcs exUtil exOld (by decide) (by decide)).1
     exConn1 "procA" exInfo1 (by decide) (by decide)⟩

/-- Claim C6: a connection known to a process but absent from the utilization
snapshot contributes nothing: the build with its entry equals the build
without it (so it creates no entry in any output map and leaves both global
totals unaffected), and it has no Connection entry; no error is signalled. -/
theorem c6_unmatched_ignored (l₁ l₂ : List (Connection × String)) (u : Utilization)
    (old_state : UIState) (c : Connection) (p : String)
    (hnone : lookupList c u.connections = none)
    (hl : ((l₁ ++ (c, p) :: l₂).map Prod.fst).Nodup) :
    UIState.new (l₁ ++ (c, p) :: l₂) u old_state = UIState.new (l₁ ++ l₂) u old_state
    ∧ lookupList c (UIState.new (l₁ ++ (c, p) :: l₂) u old_state).connections
        = none := by
  have hpres : ∀ (l : List (Connection × String)) (acc : BuildAcc),
      lookupList c acc.utilization = none →
      lookupList c (l.foldl (UIState.step old_state) acc).utilization = none := by
    intro l
    induction l with
    | nil => intro acc h; exact h
    | cons e l ih =>
      intro acc h
      rw [List.foldl_cons]
      apply ih
      cases hlk : lookupList e.1 acc.utilization with
      | none =>
        have hs : UIState.step old_state acc e = acc := by simp [UIState.step, hlk]
        rw [hs]
        exact h
      | some info =>
        have hs : (UIState.step old_state acc e).utilization
            = eraseList e.1 acc.utilization := by
          simp [UIState.step, hlk]
        rw [hs]
        exact lookupList_eraseList_of_none h
  have hmid : lookupList c
      (l₁.foldl (UIState.step old_state) (initAcc u)).utilization = none :=
    hpres l₁ (initAcc u) hnone
  have hstepid : UIState.step old_state
      (l₁.foldl (UIState.step old_state) (initAcc u)) (c, p)
      = l₁.foldl (UIState.step old_state) (initAcc u) := by
    simp [UIState.step, hmid]
  have hfold : (l₁ ++ (c, p) :: l₂).foldl (UIState.step old_state) (initAcc u)
      = (l₁ ++ l₂).foldl (UIState.step old_state) (initAcc u) := by
    rw [List.foldl_append, List.foldl_append, List.foldl_cons, hstepid]
  constructor
  · simp [UIState.new, UIState.build, hfold]
  · apply new_connections_lookup_none _ u old_state hl
    intro hmemkeys
    obtain ⟨r, hr, hrc⟩ := List.mem_map.mp hmemkeys
    have h2 := (mem_matchedRows.mp hr).2
    rw [hrc, hnone] at h2
    exact Option.noConfusion h2

/-- Witness for C6: `exConn3` is in `exProcs` but not in `exUtil`; dropping it
changes nothing and it gets no Connection entry. -/
theorem c6_unmatched_ignored_witness :
    (lookupList exConn3 exUtil.connections = none
      ∧ (([(exConn1, "procA"), (exConn2, "procA")]
          ++ (exConn3, "procB") :: []).map Prod.fst).Nodup)
    ∧ (UIState.new ([(exConn1, "procA"), (exConn2, "procA")]
          ++ (exConn3, "procB") :: []) exUtil exOld
        = UIState.new ([(exConn1, "procA"), (exConn2, "procA")] ++ []) exUtil exOld
      ∧ lookupList exConn3 (UIState.new ([(exConn1, "procA"), (exConn2, "procA")]
          ++ (exConn3, "procB") :: []) exUtil exOld).connections = none) :=
  ⟨⟨by decide, by decide⟩,
   c6_unmatched_ignored [(exConn1, "procA"), (exConn2, "procA")] [] exUtil exOld
     exConn3 "procB" (by decide) (by decide)⟩

/-- Claim C9: the Remote-Address view is keyed by the remote ip with the port
stripped: whenever some matched connection targets ip `a`, the state holds a
single aggregate under `a` whose current-tick counters are the sums of the raw
counters of all matched connections with remote ip `a` (regardless of remote
port) and whose `connection_count` is their number — so two matched connections
to the same ip on different ports collapse into one entry that sums and counts
both. -/
theorem c9_remote_keyed_by_ip (l : List (Connection × String)) (u : Utilization)
    (old_state : UIState) (hl : (l.map Prod.fst).Nodup) (a : Nat)
    (hex : ∃ r ∈ matchedRows u.connections l, r.connection.remote_socket.ip = a) :
    ((UIState.new l u old_state).remote_addresses.filter (fun e => e.1 = a)).length = 1
    ∧ lookupList a (UIState.new l u old_state).remote_addresses
      = some
        { total_bytes_downloaded :=
            (((matchedRows u.connections l).filter
              (fun r => r.connection.remote_socket.ip = a)).map
              (fun r => r.info.total_bytes_downloaded)).sum
          total_bytes_uploaded :=
            (((matchedRows u.connections l).filter
              (fun r => r.connection.remote_socket.ip = a)).map
              (fun r => r.info.total_bytes_uploaded)).sum
          prev_total_bytes_downloaded :=
            (((matchedRows u.connections l).filter
              (fun r => r.connection.remote_socket.ip = a)).map
              (rowPrevDown old_state)).sum
          prev_total_bytes_uploaded :=
            (((matchedRows u.connections l).filter
              (fun r => r.connection.remote_socket.ip = a)).map
              (rowPrevUp old_state)).sum
          connection_count :=
            ((matchedRows u.connections l).filter
              (fun r => r.connection.remote_socket.ip = a)).length } := by
  obtain ⟨r0, hr0, ha⟩ := hex
  have hne : (matchedRows u.connections l).filter
      (fun r => r.connection.remote_socket.ip = a) ≠ [] := by
    intro hnil
    have hmem : r0 ∈ (matchedRows u.connections l).filter
        (fun r => r.connection.remote_socket.ip = a) :=
      List.mem_filter.mpr ⟨hr0, by simp [ha]⟩
    rw [hnil] at hmem
    simp at hmem
  have hlk := new_remote_addresses_lookup l u old_state hl a
  rw [if_neg hne] at hlk
  constructor
  · have hpair := mem_of_lookupList hlk
    have hsingle := filter_key_eq_singleton (Prod.fst (β := NetworkData))
      (nodup_keys_new_remote_addresses l u old_state hl) hpair
    rw [show (UIState.new l u old_state).remote_addresses.filter (fun e => e.1 = a)
        = (UIState.new l u old_state).remote_addresses.filter
            (fun y => y.1 = (a, applyRows old_state
              ((matchedRows u.connections l).filter
                (fun r => r.connection.remote_socket.ip = a))
              NetworkData.default).1) from rfl, hsingle]
    simp
  · rw [hlk, applyRows_spec]
    simp [NetworkData.default]

/-- Witness for C9: `exConn1` and `exConn2` both target remote ip 20 on ports
80 and 443; the single aggregate at key 20 sums both (300 down, 120 up) and
counts 2. -/
theorem c9_remote_keyed_by_ip_witness :
    ((exProcs.map Prod.fst).Nodup
      ∧ (∃ r ∈ matchedRows exUtil.connections exProcs,
          r.connection.remote_socket.ip = 20))
    ∧ (((UIState.new exProcs exUtil exOld).remote_addresses.filter
          (fun e => e.1 = 20)).length = 1
      ∧ lookupList 20 (UIState.new exProcs exUtil exOld).remote_addresses
        = some
          { total_bytes_downloaded :=
              (((matchedRows exUtil.connections exProcs).filter
                (fun r => r.connection.remote_socket.ip = 20)).map
                (fun r => r.info.total_bytes_downloaded)).sum
            total_bytes_uploaded :=
              (((matchedRows exUtil.connections exProcs).filter
                (fun r => r.connection.remote_socket.ip = 20)).map
                (fun r => r.info.total_bytes_uploaded)).sum
            prev_total_bytes_downloaded :=
              (((matchedRows exUtil.connections exProcs).filter
                (fun r => r.connection.remote_socket.ip = 20)).map
                (rowPrevDown exOld)).sum
            prev_total_bytes_uploaded :=
              (((matchedRows exUtil.connections exProcs).filter
                (fun r => r.connection.remote_socket.ip = 20)).map
                (rowPrevUp exOld)).sum
            connection_count :=
              ((matchedRows exUtil.connections exProcs).filter
                (fun r => r.connection.remote_socket.ip = 20)).length }) :=
  ⟨⟨by decide, by decide⟩,
   c9_remote_keyed_by_ip exProcs exUtil exOld (by decide) 20 (by decide)⟩

/-- Claim C10: the build is deterministic in its inputs as mappings: two
iteration orders of the same `connections_to_procs` map produce states equal
in every field — equal lookups on the three ordered maps and equal totals. -/
theorem c10_order_independence (l₁ l₂ : List (Connection × String)) (u : Utilization)
    (old_state : UIState) (hperm : l₁.Perm l₂) (hl : (l₁.map Prod.fst).Nodup) :
    (∀ name : String, lookupList name (UIState.new l₁ u old_state).processes
        = lookupList name (UIState.new l₂ u old_state).processes)
    ∧ (∀ a : Nat, lookupList a (UIState.new l₁ u old_state).remote_addresses
        = lookupList a (UIState.new l₂ u old_state).remote_addresses)
    ∧ (∀ c : Connection, lookupList c (UIState.new l₁ u old_state).connections
        = lookupList c (UIState.new l₂ u old_state).connections)
    ∧ (UIState.new l₁ u old_state).total_bytes_downloaded
        = (UIState.new l₂ u old_state).total_bytes_downloaded
    ∧ (UIState.new l₁ u old_state).total_bytes_uploaded
        = (UIState.new l₂ u old_state).total_bytes_uploaded := by
  have hl₂ : (l₂.map Prod.fst).Nodup := (hperm.map Prod.fst).nodup_iff.mp hl
  have hrows : (matchedRows u.connections l₁).Perm (matchedRows u.connections l₂) :=
    hperm.filterMap _
  refine ⟨?_, ?_, ?_, ?_, ?_⟩
  · intro name
    rw [new_processes_lookup l₁ u old_state hl name,
      new_processes_lookup l₂ u old_state hl₂ name]
    have hfil := hrows.filter (fun r => decide (r.process_name = name))
    by_cases h1 : (matchedRows u.connections l₁).filter
        (fun r => r.process_name = name) = []
    · rw [if_pos h1, if_pos (by rw [h1] at hfil; exact hfil.symm.eq_nil)]
    · rw [if_neg h1, if_neg (fun h2 => h1 (by rw [h2] at hfil; exact hfil.eq_nil)),
        applyRows_spec, applyRows_spec]
      simp only [Option.some.injEq, NetworkData.mk.injEq]
      exact ⟨by rw [(hfil.map _).sum_eq], by rw [(hfil.map _).sum_eq],
        by rw [(hfil.map _).sum_eq], by rw [(hfil.map _).sum_eq],
        by rw [hfil.length_eq]⟩
  · intro a
    rw [new_remote_addresses_lookup l₁ u old_state hl a,
      new_remote_addresses_lookup l₂ u old_state hl₂ a]
    have hfil := hrows.filter (fun r => decide (r.connection.remote_socket.ip = a))
    by_cases h1 : (matchedRows u.connections l₁).filter
        (fun r => r.connection.remote_socket.ip = a) = []
    · rw [if_pos h1, if_pos (by rw [h1] at hfil; exact hfil.symm.eq_nil)]
    · rw [if_neg h1, if_neg (fun h2 => h1 (by rw [h2] at hfil; exact hfil.eq_nil)),
        applyRows_spec, applyRows_spec]
      simp only [Option.some.injEq, NetworkData.mk.injEq]
      exact ⟨by rw [(hfil.map _).sum_eq], by rw [(hfil.map _).sum_eq],
        by rw [(hfil.map _).sum_eq], by rw [(hfil.map _).sum_eq],
        by rw [hfil.length_eq]⟩
  · intro c
    rw [new_connections_eq l₁ u old_state hl, new_connections_eq l₂ u old_state hl₂]
    apply lookupList_perm (hrows.map _)
    rw [List.map_map]
    exact nodup_keys_matchedRows hl
  · rw [new_total_bytes_downloaded l₁ u old_state hl,
      new_total_bytes_downloaded l₂ u old_state hl₂]
    exact (hrows.map _).sum_eq
  · rw [new_total_bytes_uploaded l₁ u old_state hl,
      new_total_bytes_uploaded l₂ u old_state hl₂]
    exact (hrows.map _).sum_eq

/-- Witness for C10: iterating `exProcs` reversed yields the same totals and
the same "procA" aggregate. -/
theorem c10_order_independence_witness :
    (exProcs.Perm exProcs.reverse ∧ (exProcs.map Prod.fst).Nodup)
    ∧ (lookupList "procA" (UIState.new exProcs exUtil exOld).processes
        = lookupList "procA" (UIState.new exProcs.reverse exUtil exOld).processes
      ∧ (UIState.new exProcs exUtil exOld).total_bytes_downloaded
        = (UIState.new exProcs.reverse exUtil exOld).total_bytes_downloaded) :=
  ⟨⟨(List.reverse_perm exProcs).symm, by decide⟩,
   (c10_order_independence exProcs exProcs.reverse exUtil exOld
      (List.reverse_perm exProcs).symm (by decide)).1 "procA",
   (c10_order_independence exProcs exProcs.reverse exUtil exOld
      (List.reverse_perm exProcs).symm (by decide)).2.2.2.1⟩

end Bandwhich
